import Mathlib

set_option maxRecDepth 8192

/-!
Shallow embedding of the bob-worker request handlers: the LLM response
normalizer (`validateResponse`), the score validator (`validateScore`),
the assertion extraction / fact-check pipeline (`extractAssertions`,
`parseAssertionsFromResponse`, `calculateEnhancedTruthfulnessScore`),
the OAuth callback handler, the in-memory rate limiter and the CORS
header construction.

Modelling conventions:
* JavaScript finite numbers are rationals (`ℚ`); where a claim depends on
  `NaN` or non-number values these are modelled explicitly (`JsVal`,
  `Option ℚ` with `none` standing for `NaN`).
* Absent object fields are `Option` fields (`none` = the field is missing
  from the JSON object / the `Partial` record).
* Network calls are oracles: the outcome of a `fetch` is passed in as an
  explicit argument, and outbound requests appear as an effect list.
-/

/-- Characters matched by the JavaScript `\s` regex class (ASCII range),
also the characters removed by `String.prototype.trim`. -/
def jsWs (c : Char) : Bool :=
  c = ' ' || c = '\t' || c = '\n' || c = '\r' || c = '\x0b' || c = '\x0c'

/-- JavaScript `String.prototype.trim` on a character list: whitespace is
removed from both ends. -/
def jsTrim (l : List Char) : List Char :=
  ((l.dropWhile jsWs).reverse.dropWhile jsWs).reverse

/-- Case-sensitive "the second list starts with the first" test. -/
def startsWithChars : List Char → List Char → Bool
  | [], _ => true
  | _ :: _, [] => false
  | a :: as, b :: bs => a = b && startsWithChars as bs

/-- Case-insensitive "the second list starts with the first" test
(JavaScript regex `i` flag on a literal alternative). -/
def startsWithCI : List Char → List Char → Bool
  | [], _ => true
  | _ :: _, [] => false
  | a :: as, b :: bs => a.toLower = b.toLower && startsWithCI as bs

/-- Case-sensitive substring occurrence test. -/
def containsChars (needle : List Char) : List Char → Bool
  | [] => needle.isEmpty
  | c :: t => startsWithChars needle (c :: t) || containsChars needle t

/-- Case-insensitive substring occurrence test. -/
def containsCI (needle : List Char) : List Char → Bool
  | [] => needle.isEmpty
  | c :: t => startsWithCI needle (c :: t) || containsCI needle t

/-- JavaScript `hay.includes(needle)` on strings. -/
def jsIncludes (hay needle : String) : Bool := containsChars needle.data hay.data

/-!  Score validation (src/index.ts, `validateScore`).  -/

/-- A JavaScript value sitting in a numeric field: a finite number, `NaN`,
or a value that is not a number at all. -/
inductive JsVal where
  | num (q : ℚ)
  | nan
  | notNum
deriving DecidableEq

/-- Embedding of `validateScore` from src/index.ts lines 90-96: a non-number, `NaN`, or
a number outside [0,100] is replaced by 50; anything else is returned
unchanged.  (The `fieldName` argument only feeds a log line and is
dropped.) -/
def validateScore : JsVal → ℚ
  | .num q => if q < 0 ∨ 100 < q then 50 else q
  | .nan => 50
  | .notNum => 50

/-!  Classification response normalisation
(src/src/services/IdeologyClassifier.ts, `validateResponse`; the same
function appears in src/unnamed/part_000).  -/

/-- Nested score components of a `ClassificationResult`. -/
structure ScoreComponents where
  conviction : ℚ
  authenticity : ℚ
  intellectual_rigor : ℚ
  contrarian : ℚ
deriving DecidableEq

/-- The fully populated classification result. -/
structure ClassificationResult where
  category : String
  confidence : ℚ
  key_indicators : List String
  secondary_influences : List String
  language_patterns : List String
  conviction : ℚ
  based_score : ℚ
  score_components : ScoreComponents
deriving DecidableEq

/-- Shape of `Partial<ClassificationResult>`: every field may be absent. -/
structure PartialClassificationResult where
  category : Option String := none
  confidence : Option ℚ := none
  key_indicators : Option (List String) := none
  secondary_influences : Option (List String) := none
  language_patterns : Option (List String) := none
  conviction : Option ℚ := none
  based_score : Option ℚ := none
  score_components : Option ScoreComponents := none
deriving DecidableEq

/-- The `defaultResult` object of `validateResponse`. -/
def defaultResult : ClassificationResult where
  category := "unknown"
  confidence := 0
  key_indicators := []
  secondary_influences := []
  language_patterns := []
  conviction := 0
  based_score := 0
  score_components := ⟨0, 0, 0, 0⟩

/-- Embedding of `validateResponse` from IdeologyClassifier.ts lines 26-54: spread the
partial reply over the defaults, derive `based_score` from `conviction`
when `based_score` is falsy (0) and `conviction` is truthy (nonzero), and
clamp `confidence` into [0,1] via `Math.max(0, Math.min(1, x))`. -/
def validateResponse (analysis : PartialClassificationResult) : ClassificationResult :=
  let result : ClassificationResult :=
    { category := analysis.category.getD defaultResult.category
      confidence := analysis.confidence.getD defaultResult.confidence
      key_indicators := analysis.key_indicators.getD defaultResult.key_indicators
      secondary_influences :=
        analysis.secondary_influences.getD defaultResult.secondary_influences
      language_patterns := analysis.language_patterns.getD defaultResult.language_patterns
      conviction := analysis.conviction.getD defaultResult.conviction
      based_score := analysis.based_score.getD defaultResult.based_score
      score_components := analysis.score_components.getD defaultResult.score_components }
  let result :=
    if result.based_score = 0 ∧ result.conviction ≠ 0 then
      { result with based_score := result.conviction * 100 }
    else result
  { result with confidence := max 0 (min 1 result.confidence) }

/-!  Fact-check aggregation (src/src/assertion-checker.ts).  -/

/-- A political belief as produced by the based-score schema. -/
structure PoliticalBelief where
  belief : String
  justification : String
  confidence : ℚ
  importance : ℚ
deriving DecidableEq

/-- The result of a single fact check. -/
structure FactCheckResult where
  statement : String
  isTrue : Bool
  confidence : ℚ
  explanation : String
  sources : List String
deriving DecidableEq

/-- The richer based-score record (src/index.ts `BasedScoreSchema`);
`tribal_affiliation` is kept as a plain string. -/
structure BasedScore where
  tribal_affiliation : String
  justification_for_basedness : String
  contrarian_beliefs : List PoliticalBelief
  mainstream_beliefs : List PoliticalBelief
  based_score : ℚ
  sincerity_score : ℚ
  truthfulness_score : ℚ
  conspiracy_score : ℚ
deriving DecidableEq

/-- Embedding of `calculateEnhancedTruthfulnessScore` from assertion-checker.ts lines
415-429: with no fact checks return 50; otherwise each check contributes
`confidence * 100 * weight` when `isTrue` (weight 1.2 when the check's
statement is a substring of some mainstream belief's text, else 0.8), and
the sum of contributions is divided by the number of checks and rounded
(`Math.round`). -/
def calculateEnhancedTruthfulnessScore (factChecks : List FactCheckResult)
    (basedScore : BasedScore) : ℤ :=
  if factChecks.length = 0 then 50
  else
    let weightedScore : ℚ := factChecks.foldl (fun acc check =>
      let isMainstream := basedScore.mainstream_beliefs.any
        (fun belief => jsIncludes belief.belief check.statement)
      let weight : ℚ := if isMainstream then 1.2 else 0.8
      acc + (if check.isTrue then check.confidence * 100 * weight else 0)) 0
    round (weightedScore / (factChecks.length : ℚ))

/-- Specification-side formula for the aggregate: the plain sum, over all
checks, of `confidence * 100 * weight` for true checks and `0` otherwise,
as the spec words it. -/
def specWeightedSum (factChecks : List FactCheckResult) (basedScore : BasedScore) : ℚ :=
  (factChecks.map (fun check =>
    if check.isTrue then
      check.confidence * 100 *
        (if basedScore.mainstream_beliefs.any
            (fun b => jsIncludes b.belief check.statement) then (1.2 : ℚ) else 0.8)
    else 0)).sum

/-!  Assertion parsing (src/src/assertion-checker.ts,
`parseAssertionsFromResponse`).  The JSON branch works on the value
produced by `JSON.parse`; the markdown branch is a faithful rendering of
the section-splitting regex and of the per-field extraction regexes,
including their backtracking behaviour.  -/

/-- A JSON value as produced by a successful `JSON.parse`. -/
inductive JsonVal where
  | jnull
  | jbool (b : Bool)
  | jnum (q : ℚ)
  | jstr (s : String)
  | jarr (xs : List JsonVal)
  | jobj (fields : List (String × JsonVal))

/-- First binding of a key in a JSON object (`none` is JavaScript
`undefined`). -/
def jlookup (key : String) : List (String × JsonVal) → Option JsonVal
  | [] => none
  | (k, v) :: t => if k = key then some v else jlookup key t

/-- An extracted assertion.  Confidences are `Option ℚ`, with `none`
standing for the JavaScript number `NaN` (which `parseFloat` can
produce). -/
structure Assertion where
  statement : String
  isFactCheckable : Bool
  modelConfidence : Option ℚ
  userConfidence : Option ℚ
  sourceContext : Option String
deriving DecidableEq

/-- The zod `z.number().min(0).max(1)` check applied to a confidence
value: `NaN` is rejected by `z.number()` (zod classifies `NaN` as its own
parsed type), and finite numbers must lie in [0,1]. -/
def zodConfidenceOk : Option ℚ → Bool
  | none => false
  | some q => decide (0 ≤ q) && decide (q ≤ 1)

/-- One element of the JSON-array branch: property access on the element
followed by `AssertionSchema.parse`; any failure (non-object element,
missing or mistyped field, confidence out of range) is caught per element
and yields `none`. -/
def parseJsonAssertion (v : JsonVal) : Option Assertion :=
  let fields := match v with | .jobj fs => fs | _ => []
  match jlookup "statement" fields, jlookup "isFactCheckable" fields,
        jlookup "modelConfidence" fields, jlookup "userConfidence" fields with
  | some (.jstr st), some (.jbool fc), some (.jnum mc), some (.jnum uc) =>
    if zodConfidenceOk (some mc) && zodConfidenceOk (some uc) then
      match jlookup "sourceContext" fields with
      | none => some ⟨st, fc, some mc, some uc, none⟩
      | some (.jstr ctx) => some ⟨st, fc, some mc, some uc, some ctx⟩
      | some _ => none
    else none
  | _, _, _, _ => none

/-- The JSON-array branch of `parseAssertionsFromResponse`: map the
schema parse over the array and drop the failures. -/
def parseJsonAssertions (xs : List JsonVal) : List Assertion :=
  xs.filterMap parseJsonAssertion

/-- Does `\d+\.` match at the head of the list? -/
def numDotAt (l : List Char) : Bool :=
  (match l.head? with | some c => c.isDigit | none => false)
  && (l.dropWhile Char.isDigit).head? == some '.'

/-- Does `Assertion \d+:` match at the head of the list (case-sensitive,
as in the split regex)? -/
def assertionLabelAt (l : List Char) : Bool :=
  startsWithChars "Assertion ".data l &&
    (let r := l.drop 10
     (match r.head? with | some c => c.isDigit | none => false)
     && (r.dropWhile Char.isDigit).head? == some ':')

/-- A zero-width match position of the section-splitting regex
`/(?=\d+\.|Assertion \d+:|\n\n)/g`. -/
def sectionCutAt (l : List Char) : Bool :=
  numDotAt l || assertionLabelAt l || startsWithChars "\n\n".data l

/-- Worker for `splitSections`: `acc` holds the reversed current section.
A cut position is only honoured after at least one character, because
JavaScript `split` ignores a zero-width match at index 0. -/
def splitGo : List Char → List Char → List (List Char)
  | [], acc => [acc.reverse]
  | c :: rest, acc =>
    if sectionCutAt (c :: rest) && !acc.isEmpty then
      acc.reverse :: splitGo rest [c]
    else splitGo rest (c :: acc)

/-- JavaScript `content.split(/(?=\d+\.|Assertion \d+:|\n\n)/g)`. -/
def splitSections (content : List Char) : List (List Char) := splitGo content []

/-- If the second list starts (case-insensitively) with the first, return
the remainder after it. -/
def dropCI : List Char → List Char → Option (List Char)
  | [], l => some l
  | _ :: _, [] => none
  | a :: as, b :: bs => if a.toLower = b.toLower then dropCI as bs else none

/-- Match one of the literal label alternatives (tried in order, as the
regex alternation does) at the head of the list, returning the remainder
after the matched label. -/
def anyLabelAt (labels : List String) (l : List Char) : Option (List Char) :=
  match labels with
  | [] => none
  | lab :: labs =>
    match dropCI lab.data l with
    | some rest => some rest
    | none => anyLabelAt labs l

/-- Match `Fact.?checkable:` or `Verifiable:` at the head of the list,
case-insensitively; the greedy `.?` first tries to consume one character
(never a newline) and falls back to consuming nothing. -/
def factLabelAt (l : List Char) : Option (List Char) :=
  match dropCI "fact".data l with
  | some r =>
    match r with
    | c :: r2 =>
      if c = '\n' then dropCI "checkable:".data r
      else
        match dropCI "checkable:".data r2 with
        | some rest => some rest
        | none => dropCI "checkable:".data r
    | [] => none
  | none => dropCI "verifiable:".data l

/-- Scan left to right for the first position where `labelAt` matches and
`after` accepts the remainder, moving one character at a time exactly as
the regex engine's search does. -/
def scanFor (labelAt : List Char → Option (List Char))
    (after : List Char → Option (List Char)) : List Char → Option (List Char)
  | [] => none
  | c :: rest =>
    match labelAt (c :: rest) with
    | some tail =>
      match after tail with
      | some r => some r
      | none => scanFor labelAt after rest
    | none => scanFor labelAt after rest

/-- Length of the leading JS-whitespace run. -/
def wsCount (l : List Char) : Nat := (l.takeWhile jsWs).length

/-- Backtracking loop for `\s*(.+?)(?=\n|$)`: whitespace-prefix lengths
are tried from `j` down to 0 (the greedy `\s*`); at each, the lazy `.+?`
can only capture the maximal newline-free run, which necessarily ends at
a newline or at the end of the input. -/
def lineCaptureGo (t : List Char) : Nat → Option (List Char)
  | 0 =>
    match t.head? with
    | some c => if c = '\n' then none else some (t.takeWhile (fun d => d ≠ '\n'))
    | none => none
  | j + 1 =>
    let r := t.drop (j + 1)
    match r.head? with
    | some c =>
      if c = '\n' then lineCaptureGo t j
      else some (r.takeWhile (fun d => d ≠ '\n'))
    | none => lineCaptureGo t j

/-- Capture of `\s*(.+?)(?=\n|$)` anchored at the start of `t`. -/
def lineCapture (t : List Char) : Option (List Char) :=
  lineCaptureGo t (wsCount t)

/-- Capture of `\s*([\d.]+)` anchored at the start of `t`; whitespace
characters are never digits or dots, so backtracking into `\s*` cannot
help and the match fails when no digit-or-dot run follows. -/
def numCapture (t : List Char) : Option (List Char) :=
  let r := t.dropWhile jsWs
  let run := r.takeWhile (fun c => c.isDigit || c = '.')
  if run.isEmpty then none else some run

/-- Lazy capture for the dot-all `.+?` with lookahead `(?=\n\n|$)`: the
minimal nonempty prefix after which the remainder is empty or starts with
a blank line. -/
def tudn : List Char → List Char
  | [] => []
  | c :: rest =>
    if rest.isEmpty || startsWithChars "\n\n".data rest then [c]
    else c :: tudn rest

/-- Backtracking loop for `\s*(.+?)(?=\n\n|$)` with the `s` flag: in
dot-all mode `.+?` accepts any nonempty remainder. -/
def dotAllCaptureGo (t : List Char) : Nat → Option (List Char)
  | 0 => if t.isEmpty then none else some (tudn t)
  | j + 1 =>
    if (t.drop (j + 1)).isEmpty then dotAllCaptureGo t j
    else some (tudn (t.drop (j + 1)))

/-- Capture of `\s*(.+?)(?=\n\n|$)` (dot-all) anchored at the start. -/
def dotAllCapture (t : List Char) : Option (List Char) :=
  dotAllCaptureGo t (wsCount t)

/-- JavaScript `/yes|true|verifiable/i.test(s)`. -/
def yesTrueVerifiable (l : List Char) : Bool :=
  containsCI "yes".data l || containsCI "true".data l || containsCI "verifiable".data l

/-- Value of a digit run as a natural number. -/
def digitsVal (l : List Char) : Nat :=
  l.foldl (fun acc c => acc * 10 + (c.toNat - '0'.toNat)) 0

/-- JavaScript `parseFloat` restricted to captures of `[\d.]+`: an
optional integer part, then optionally a dot and a fractional part;
anything after a second dot is ignored; `none` is `NaN` (no digits before
a missing or barren dot). -/
def jsParseFloat (l : List Char) : Option ℚ :=
  let intPart := l.takeWhile Char.isDigit
  let rest := l.drop intPart.length
  match rest.head? with
  | some '.' =>
    let fracPart := (rest.drop 1).takeWhile Char.isDigit
    if intPart.isEmpty && fracPart.isEmpty then none
    else some (mkRat (digitsVal intPart * 10 ^ fracPart.length + digitsVal fracPart)
      (10 ^ fracPart.length))
  | _ =>
    if intPart.isEmpty then none else some (mkRat (digitsVal intPart) 1)

/-- Parse one markdown section: regex field extraction with the per-field
defaults (`modelConfidence = userConfidence = 0.5`,
`isFactCheckable = false`), then the `AssertionSchema.parse` validation.
A section without a truthy (nonempty) statement, or whose confidences
fail validation, yields nothing and is skipped. -/
def parseSection (sec : List Char) : Option Assertion :=
  let fc : Bool :=
    match scanFor factLabelAt lineCapture sec with
    | some cap => yesTrueVerifiable cap
    | none => false
  let mc : Option ℚ :=
    match scanFor (anyLabelAt ["model confidence:", "confidence:"]) numCapture sec with
    | some cap => jsParseFloat cap
    | none => some (mkRat 1 2)
  let uc : Option ℚ :=
    match scanFor (anyLabelAt ["user confidence:"]) numCapture sec with
    | some cap => jsParseFloat cap
    | none => some (mkRat 1 2)
  let ctx : Option String :=
    match scanFor (anyLabelAt ["context:", "analysis:", "explanation:"]) dotAllCapture sec with
    | some cap => some (String.mk (jsTrim cap))
    | none => none
  match scanFor (anyLabelAt ["statement:", "claim:"]) lineCapture sec with
  | none => none
  | some cap =>
    let st := jsTrim cap
    if st.isEmpty then none
    else if zodConfidenceOk mc && zodConfidenceOk uc then
      some ⟨String.mk st, fc, mc, uc, ctx⟩
    else none

/-- The markdown fallback branch of `parseAssertionsFromResponse`:
split into sections and keep the sections that parse. -/
def parseMarkdownAssertions (content : String) : List Assertion :=
  (splitSections content.data).filterMap parseSection

/-- Embedding of `parseAssertionsFromResponse` from assertion-checker.ts lines
121-215.  The first argument abstracts the result of `JSON.parse content`
(`none` when the parse throws).  A successful parse that is not an array
falls through to the markdown branch, exactly as in the source. -/
def parseAssertionsFromResponse (parsed : Option JsonVal) (content : String) :
    List Assertion :=
  match parsed with
  | some (.jarr xs) => parseJsonAssertions xs
  | _ => parseMarkdownAssertions content

/-- Outcome of the Perplexity chat-completions call made by
`extractAssertions`: the fetch may throw, return a non-2xx response, a
response lacking `choices[0].message.content`, or succeed with a content
string (paired with the abstracted `JSON.parse` outcome on it). -/
inductive ExtractFetchOutcome where
  | fetchThrew
  | notOk (errorText : String)
  | badShape
  | okContent (parsed : Option JsonVal) (content : String)

/-- Embedding of `extractAssertions` from assertion-checker.ts lines 52-116: every
failure path is caught and yields `[]`; a successful call parses the
content.  The belief list only shapes the outbound prompt and does not
influence the returned value. -/
def extractAssertions (beliefs : List PoliticalBelief) :
    ExtractFetchOutcome → List Assertion
  | .fetchThrew => []
  | .notOk _ => []
  | .badShape => []
  | .okContent parsed content => parseAssertionsFromResponse parsed content

/-!  OAuth callback (src/src/index.ts, `handleOauthCallback`; the
body-parameter variant in src/src/callXApi.ts has the same control
flow).  -/

/-- The stored `oauth_verifiers` row found for a `state` value. -/
structure StoredOAuthState where
  codeVerifier : String
  expiresAt : Int
deriving DecidableEq

/-- An outbound effect of the callback handler. -/
inductive OAuthEffect where
  | tokenExchange (code codeVerifier : String)
  | storeToken (accessToken refreshToken : String) (expiresIn : Int)
deriving DecidableEq

/-- Outcome of the token-endpoint fetch, supplied as an oracle. -/
inductive TokenOutcome where
  | threw
  | httpError (status : Nat)
  | ok (accessToken refreshToken : String) (expiresIn : Int)

/-- Embedding of `handleOauthCallback` from src/index.ts lines 754-852, reduced to its
control flow: require `code` and `state`, look the verifier row up by
`state`, and only then POST to the token endpoint.  `now` is the ambient
clock; the source never consults it, nor the stored `expires_at`.  The
result is the HTTP status paired with the list of outbound effects. -/
def handleOauthCallback (now : Int) (code state : Option String)
    (store : String → Option StoredOAuthState) (oracle : TokenOutcome) :
    Nat × List OAuthEffect :=
  match code, state with
  | some c, some s =>
    match store s with
    | none => (400, [])
    | some st =>
      match oracle with
      | .threw => (500, [.tokenExchange c st.codeVerifier])
      | .httpError status => (status, [.tokenExchange c st.codeVerifier])
      | .ok tok rtok ei =>
        (200, [.tokenExchange c st.codeVerifier, .storeToken tok rtok ei])
  | _, _ => (400, [])

/-!  Rate limiter (src/unnamed/part_001).  -/

/-- The request limit per window. -/
def RATE_LIMIT : Nat := 300

/-- The window length, 15 minutes in milliseconds. -/
def WINDOW_MS : Int := 15 * 60 * 1000

/-- One entry of the in-memory `rateLimits` map. -/
structure RateLimitInfo where
  count : Nat
  resetAt : Int
deriving DecidableEq

/-- The in-memory `rateLimits` map. -/
def RLState := String → Option RateLimitInfo

/-- Embedding of `rateLimits.set(key, v)`. -/
def rlSet (m : RLState) (key : String) (v : RateLimitInfo) : RLState :=
  fun k => if k = key then some v else m k

/-- Embedding of `isRateLimited` from src/unnamed/part_001 lines 12-30: reset when no
entry exists or the window elapsed (`now > resetAt`); reject without
incrementing once the count has reached the limit; otherwise increment
and accept. -/
def isRateLimited (key : String) (now : Int) (m : RLState) : Bool × RLState :=
  match m key with
  | none => (false, rlSet m key ⟨1, now + WINDOW_MS⟩)
  | some info =>
    if info.resetAt < now then (false, rlSet m key ⟨1, now + WINDOW_MS⟩)
    else if RATE_LIMIT ≤ info.count then (true, m)
    else (false, rlSet m key ⟨info.count + 1, info.resetAt⟩)

/-- Run a sequence of `isRateLimited` calls for one key at the given
times, collecting the results in order. -/
def runCalls (key : String) : List Int → RLState → List Bool
  | [], _ => []
  | t :: ts, m =>
    let r := isRateLimited key t m
    r.1 :: runCalls key ts r.2

/-!  CORS headers (src/src/handleCors.ts `getCorsHeaders` and the
`handleCors` of src/src/assertion-checker.ts).  -/

/-- The allow-list of src/handleCors.ts. -/
def allowedOriginsHandleCors : List String :=
  ["http://localhost:5173", "http://localhost:8787",
   "https://bob-worker.affaan.workers.dev", "https://bob.affaanltd.com"]

/-- Embedding of `getCorsHeaders` from src/handleCors.ts lines 30-45: the `Origin`
request header (defaulted to `""` when absent) is echoed when it is in
the allow-list, otherwise the header value is the empty string.  Headers
are an association list of names to values. -/
def getCorsHeaders (origin : Option String) : List (String × String) :=
  let o := origin.getD ""
  [("Access-Control-Allow-Origin", if allowedOriginsHandleCors.contains o then o else ""),
   ("Access-Control-Allow-Methods", "GET, HEAD, POST, OPTIONS"),
   ("Access-Control-Allow-Headers", "Content-Type, Authorization, Accept"),
   ("Access-Control-Allow-Credentials", "true")]

/-- The allow-list of the assertion-checker `handleCors`. -/
def allowedOriginsAssertionChecker : List String :=
  ["http://localhost:5173", "https://basedorbiased.com", "*"]

/-- The CORS headers built by `handleCors` in assertion-checker.ts lines
433-441: a disallowed or absent `Origin` falls back to
`allowedOrigins[0]`. -/
def handleCorsHeaders (origin : Option String) : List (String × String) :=
  let v := match origin with
    | some o =>
      if allowedOriginsAssertionChecker.contains o then o
      else allowedOriginsAssertionChecker.headD ""
    | none => allowedOriginsAssertionChecker.headD ""
  [("Access-Control-Allow-Origin", v),
   ("Access-Control-Allow-Methods", "GET, POST, OPTIONS"),
   ("Access-Control-Allow-Headers", "Content-Type"),
   ("Access-Control-Allow-Credentials", "true")]

/-- Lookup of a header value in an association list of headers. -/
def headerValue (name : String) : List (String × String) → Option String
  | [] => none
  | (k, v) :: t => if k = name then some v else headerValue name t

/-- A based-score record whose only mainstream belief contains the text
of the example fact check "water is wet". -/
def exampleBasedScore : BasedScore :=
  ⟨"tech bro", "j", [], [⟨"indeed water is wet", "because", 1, 1⟩], 75, 85, 70, 60⟩

/-! Helper lemmas for the markdown-parser analysis (claim C5). -/

/-- Helper: a computable sufficient condition for a case-insensitive
label not to match: the literal mismatches already within the inspected
prefix. -/
def ciMismatch : List Char → List Char → Bool
  | [], _ => false
  | _ :: _, [] => false
  | a :: as, b :: bs => decide (a.toLower ≠ b.toLower) || ciMismatch as bs

/-- Helper: pointwise prefix check over all positions of a segment. -/
def posDead (refute : List Char → Bool) : List Char → Bool
  | [] => true
  | c :: r => refute (c :: r) && posDead refute r

/-- Helper: does the digit run of the tail end, inside the prefix, at a
character other than a dot? -/
def numDotRun : List Char → Bool
  | [] => false
  | d :: r => if d.isDigit then numDotRun r else decide (d ≠ '.')

/-- Helper: computable sufficient check that `\d+\.` cannot match at this
position however the text continues. -/
def numDotRefute : List Char → Bool
  | [] => false
  | c :: r => if c.isDigit then numDotRun r else true

/-- Helper: case-sensitive in-prefix mismatch check. -/
def csMismatch : List Char → List Char → Bool
  | [], _ => false
  | _ :: _, [] => false
  | a :: as, b :: bs => decide (a ≠ b) || csMismatch as bs

/-- Helper: two-character check refuting a `\n\n` match. -/
def nlRefute : List Char → Bool
  | [] => true
  | c :: r =>
    if c = '\n' then
      match r with
      | [] => false
      | d :: _ => decide (d ≠ '\n')
    else true

/-- Helper: computable sufficient check that no section cut can occur at
this position however the text continues. -/
def cutRefute (p : List Char) : Bool :=
  numDotRefute p && csMismatch "Assertion ".data p && nlRefute p

/-- The markdown rendering of one assertion with statement `s`,
fact-checkable yes, model confidence 0.9, user confidence 0.8, in the
exact labelled format the extraction prompt requests. -/
def mdAssertion (s : String) : String :=
  "Assertion 1:\nStatement: " ++ s ++
    "\nFact-checkable: yes\nModel Confidence: 0.9\nUser Confidence: 0.8"

/-- The JSON rendering of the same assertion. -/
def jsonAssertion (s : String) : JsonVal :=
  .jobj [("statement", .jstr s), ("isFactCheckable", .jbool true),
    ("modelConfidence", .jnum (mkRat 9 10)), ("userConfidence", .jnum (mkRat 8 10))]

/-- The markdown rendering with only a statement line. -/
def mdStatementOnly (s : String) : String := "Assertion 1:\nStatement: " ++ s

/-- Helper: every label of the list mismatches within the prefix. -/
def labsMismatch (labs : List String) (p : List Char) : Bool :=
  labs.all (fun lab => ciMismatch lab.data p)

/-- Helper: prefix refuter for the fact-checkable label. -/
def factMismatch (p : List Char) : Bool :=
  ciMismatch "fact".data p && ciMismatch "verifiable:".data p

/-- Helper: folding an addition of per-element contributions over a list
equals the starting value plus the sum of the mapped list. -/
theorem foldl_add_map {α : Type} (f : α → ℚ) (l : List α) (a : ℚ) :
    l.foldl (fun acc x => acc + f x) a = a + (l.map f).sum := by
  induction l generalizing a with
  | nil => simp
  | cons x t ih => simp [List.foldl_cons, ih, add_assoc]

/-- Helper: the aggregator on one true mainstream-matching check with
confidence 1 yields 120. -/
theorem calc_single_mainstream_120 :
    calculateEnhancedTruthfulnessScore [⟨"water is wet", true, 1, "e", ["s"]⟩]
      exampleBasedScore = 120 := by
  have h : jsIncludes "indeed water is wet" "water is wet" = true := by decide
  simp [calculateEnhancedTruthfulnessScore, exampleBasedScore, h]
  norm_num [round_eq]

/-- Claim C2: the truthfulness aggregator returns 50 on the empty list
and otherwise rounds the weighted contribution sum divided by the number
of checks; in particular one true mainstream-matching check with
confidence 1 gives 120. -/
theorem calculateEnhancedTruthfulness_spec :
    (∀ fcs bs, calculateEnhancedTruthfulnessScore fcs bs =
      if fcs.length = 0 then 50
      else round (specWeightedSum fcs bs / (fcs.length : ℚ))) ∧
    calculateEnhancedTruthfulnessScore [⟨"water is wet", true, 1, "e", ["s"]⟩]
      exampleBasedScore = 120 := by
  constructor
  · intro fcs bs
    by_cases h : fcs.length = 0
    · simp [calculateEnhancedTruthfulnessScore, h]
    · simp only [calculateEnhancedTruthfulnessScore, specWeightedSum, h, if_false]
      rw [foldl_add_map]
      simp
  · exact calc_single_mainstream_120

/-- Claim C3 (code bug): the aggregated truthfulness score escapes its
declared 0-100 range: one true fact check with confidence 1 whose
statement occurs in a mainstream belief makes
`calculateEnhancedTruthfulnessScore` return 120, which exceeds 100. -/
theorem truthfulness_score_escapes_range :
    calculateEnhancedTruthfulnessScore [⟨"water is wet", true, 1, "e", ["s"]⟩]
      exampleBasedScore = 120 ∧ ¬((120 : ℤ) ≤ 100) :=
  ⟨calc_single_mainstream_120, by norm_num⟩

/-- Claim C4: `validateScore` returns exactly 50 whenever the input is
not a number, is `NaN`, is negative or exceeds 100, and returns the input
unchanged whenever it is a number in [0,100]. -/
theorem validateScore_spec :
    validateScore JsVal.nan = 50 ∧ validateScore JsVal.notNum = 50 ∧
    (∀ q : ℚ, q < 0 ∨ 100 < q → validateScore (JsVal.num q) = 50) ∧
    (∀ q : ℚ, 0 ≤ q → q ≤ 100 → validateScore (JsVal.num q) = q) := by
  refine ⟨rfl, rfl, ?_, ?_⟩
  · intro q h
    simp only [validateScore]
    exact if_pos h
  · intro q h0 h100
    simp only [validateScore]
    rw [if_neg (by push_neg; exact ⟨h0, h100⟩)]

/-- Witness for C4 at the concrete inputs 150 (out of range, replaced by
50) and 73 (in range, unchanged). -/
theorem validateScore_spec_witness :
    validateScore (JsVal.num 150) = 50 ∧ validateScore (JsVal.num 73) = 73 :=
  ⟨validateScore_spec.2.2.1 150 (Or.inr (by norm_num)),
   validateScore_spec.2.2.2 73 (by norm_num) (by norm_num)⟩

/-- Claim C1 counterexample: on the partial input carrying only
`conviction = 0.5`, the absent `based_score` is not defaulted to 0 in the
returned object: the derivation rule overwrites it with 50. -/
theorem validateResponse_absent_based_score_not_zero :
    (validateResponse { conviction := some 0.5 }).based_score = 50 ∧ (50 : ℚ) ≠ 0 := by
  constructor
  · norm_num [validateResponse, defaultResult]
  · norm_num

/-- Claim C1 (amended): `validateResponse` is total and returns a fully
populated object: absent strings default to "unknown", absent arrays to
empty, absent numbers to 0, except that `based_score` is overwritten by
`conviction * 100` when the merged `based_score` is 0 and `conviction` is
nonzero; the returned confidence always lies in [0,1]. -/
theorem validateResponse_spec (p : PartialClassificationResult) :
    0 ≤ (validateResponse p).confidence ∧ (validateResponse p).confidence ≤ 1 ∧
    (validateResponse p).category = p.category.getD "unknown" ∧
    (validateResponse p).key_indicators = p.key_indicators.getD [] ∧
    (validateResponse p).secondary_influences = p.secondary_influences.getD [] ∧
    (validateResponse p).language_patterns = p.language_patterns.getD [] ∧
    (validateResponse p).conviction = p.conviction.getD 0 ∧
    (validateResponse p).score_components = p.score_components.getD ⟨0, 0, 0, 0⟩ ∧
    (validateResponse p).based_score =
      (if p.based_score.getD 0 = 0 ∧ p.conviction.getD 0 ≠ 0
       then p.conviction.getD 0 * 100 else p.based_score.getD 0) := by
  unfold validateResponse
  simp only [defaultResult]
  by_cases h : p.based_score.getD 0 = 0 ∧ p.conviction.getD 0 ≠ 0 <;>
    simp [h, le_max_left, max_le_iff, min_le_left]

/-- Claim C6: whenever `based_score` is absent or falsy (0) and
`conviction` is present, the normalised `based_score` equals
`conviction * 100`. -/
theorem validateResponse_derives_based_score (p : PartialClassificationResult) (c : ℚ)
    (hb : p.based_score = none ∨ p.based_score = some 0) (hc : p.conviction = some c) :
    (validateResponse p).based_score = c * 100 := by
  have hb0 : p.based_score.getD 0 = 0 := by
    rcases hb with h | h <;> simp [h]
  unfold validateResponse
  by_cases h0 : c = 0
  · subst h0
    simp [hb0, hc, defaultResult]
  · simp [hb0, hc, h0, defaultResult]

/-- Witness for C6: input `{conviction: 0.8}` with no `based_score`
yields `based_score = 80`. -/
theorem validateResponse_derives_based_score_witness :
    (validateResponse { conviction := some 0.8 }).based_score = 80 := by
  have := validateResponse_derives_based_score { conviction := some 0.8 } 0.8
    (Or.inl rfl) rfl
  rw [this]; norm_num

/-- Claim C10: `extractAssertions` never throws: every failure outcome of
the upstream call (fetch exception, non-2xx response, missing
`choices[0].message.content`) yields the empty list, and a successful
call yields the possibly-partial parsed list. -/
theorem extractAssertions_total (beliefs : List PoliticalBelief) :
    extractAssertions beliefs .fetchThrew = [] ∧
    (∀ e, extractAssertions beliefs (.notOk e) = []) ∧
    extractAssertions beliefs .badShape = [] ∧
    (∀ parsed content, extractAssertions beliefs (.okContent parsed content) =
      parseAssertionsFromResponse parsed content) :=
  ⟨rfl, fun _ => rfl, rfl, fun _ _ => rfl⟩

/-- Claim C7 counterexample: a callback presenting a state whose stored
verifier row is already expired (`expiresAt = 0` while the clock reads
1000000, so no non-expired record exists) still issues a token-endpoint
exchange rather than answering 400 without one: the handler never
consults expiry. -/
theorem oauthCallback_expired_state_still_exchanges :
    (handleOauthCallback 1000000 (some "authcode") (some "s1")
        (fun s => if s = "s1" then some ⟨"verifier", 0⟩ else none) .threw).2 =
      [.tokenExchange "authcode" "verifier"] ∧ ((0 : Int) < 1000000) := by
  constructor
  · rfl
  · norm_num

/-- Claim C7 (amended): a callback with a missing `code` or `state`, or
whose `state` has no stored verifier row at all, is answered 400 with no
token-endpoint call; and any token-endpoint call happens only after a
successful verifier lookup by state.  (Expiry of the stored row is not
checked.) -/
theorem oauthCallback_unknown_state_rejected (now : Int) (code state : Option String)
    (store : String → Option StoredOAuthState) (oracle : TokenOutcome) :
    ((code = none ∨ state = none ∨ (∀ s, state = some s → store s = none)) →
      handleOauthCallback now code state store oracle = (400, [])) ∧
    (∀ e, e ∈ (handleOauthCallback now code state store oracle).2 →
      ∃ s rec, state = some s ∧ store s = some rec) := by
  constructor
  · rintro (h | h | h)
    · subst h; rfl
    · subst h; cases code <;> rfl
    · cases code with
      | none => rfl
      | some c =>
        cases state with
        | none => rfl
        | some s => simp [handleOauthCallback, h s rfl]
  · intro e he
    cases code with
    | none => simp [handleOauthCallback] at he
    | some c =>
      cases state with
      | none => simp [handleOauthCallback] at he
      | some s =>
        refine ⟨s, ?_⟩
        cases hs : store s with
        | none => simp [handleOauthCallback, hs] at he
        | some rec => exact ⟨rec, rfl, rfl⟩

/-- Witness for C7 (amended) at a concrete unknown state. -/
theorem oauthCallback_unknown_state_rejected_witness :
    handleOauthCallback 0 (some "c") (some "s") (fun _ => none) .threw = (400, []) :=
  (oauthCallback_unknown_state_rejected 0 (some "c") (some "s") (fun _ => none) .threw).1
    (Or.inr (Or.inr (fun _ _ => rfl)))

/-- Helper for C8: starting from a map entry with count `c ≥ 1` and reset
time `R`, a sequence of calls at times not exceeding `R` produces, at
position `i`, a rejection exactly when `c + i` has reached the limit. -/
theorem runCalls_formula (key : String) (R : Int) (ts : List Int)
    (h : ∀ t ∈ ts, t ≤ R) (c : Nat) (m : RLState) (hm : m key = some ⟨c, R⟩) :
    runCalls key ts m = (List.range ts.length).map (fun i => decide (RATE_LIMIT ≤ c + i)) := by
  induction ts generalizing c m with
  | nil => simp [runCalls]
  | cons t ts ih =>
    have hR : ¬(R < t) := not_lt.2 (h t (List.mem_cons_self t ts))
    by_cases hc : RATE_LIMIT ≤ c
    · have step : isRateLimited key t m = (true, m) := by
        simp [isRateLimited, hm, hR, hc]
      have tail := ih (fun u hu => h u (List.mem_cons_of_mem t hu)) c m hm
      simp only [runCalls, step]
      rw [tail, List.length_cons, List.range_succ_eq_map, List.map_cons, List.map_map]
      congr 1
      · simp [hc]
      · apply List.map_congr_left
        intro i _
        simp only [Function.comp_apply, decide_eq_decide]
        omega
    · have step : isRateLimited key t m = (false, rlSet m key ⟨c + 1, R⟩) := by
        simp [isRateLimited, hm, hR, hc]
      have hm2 : rlSet m key ⟨c + 1, R⟩ key = some ⟨c + 1, R⟩ := by simp [rlSet]
      have tail := ih (fun u hu => h u (List.mem_cons_of_mem t hu)) (c + 1) _ hm2
      simp only [runCalls, step]
      rw [tail, List.length_cons, List.range_succ_eq_map, List.map_cons, List.map_map]
      congr 1
      · simp [hc]
      · apply List.map_congr_left
        intro i _
        simp only [Function.comp_apply, decide_eq_decide]
        omega

/-- Claim C8: for any key, starting with no entry, within a single window
(all later call times at most `t0 + WINDOW_MS`) the 300th call to
`isRateLimited` returns false (accepted) and the 301st returns true
(rejected). -/
theorem rateLimiter_300th_accepted_301st_rejected (key : String) (t0 : Int)
    (ts : List Int) (m0 : RLState) (hm : m0 key = none)
    (hts : ∀ t ∈ ts, t ≤ t0 + WINDOW_MS) (hlen : 300 ≤ ts.length) :
    (runCalls key (t0 :: ts) m0).get? 299 = some false ∧
    (runCalls key (t0 :: ts) m0).get? 300 = some true := by
  have step : isRateLimited key t0 m0 = (false, rlSet m0 key ⟨1, t0 + WINDOW_MS⟩) := by
    simp [isRateLimited, hm]
  have hm1 : rlSet m0 key ⟨1, t0 + WINDOW_MS⟩ key = some ⟨1, t0 + WINDOW_MS⟩ := by
    simp [rlSet]
  have tail := runCalls_formula key (t0 + WINDOW_MS) ts hts 1 _ hm1
  simp only [runCalls, step, tail]
  constructor
  · show List.get? (false :: _) 299 = some false
    rw [List.get?_cons_succ]
    rw [List.get?_map]
    rw [List.get?_range (by omega)]
    simp [RATE_LIMIT]
  · show List.get? (false :: _) 300 = some true
    rw [List.get?_cons_succ]
    rw [List.get?_map]
    rw [List.get?_range (by omega)]
    simp [RATE_LIMIT]

/-- Witness for C8: 301 calls at time 0 for key "k" starting from the
empty map: the 300th call is accepted, the 301st rejected. -/
theorem rateLimiter_300th_accepted_301st_rejected_witness :
    (runCalls "k" ((0 : Int) :: List.replicate 300 0) (fun _ => none)).get? 299 =
      some false ∧
    (runCalls "k" ((0 : Int) :: List.replicate 300 0) (fun _ => none)).get? 300 =
      some true := by
  apply rateLimiter_300th_accepted_301st_rejected
  · rfl
  · intro t ht
    rw [List.eq_of_mem_replicate ht]
    norm_num [WINDOW_MS]
  · simp

/-- Claim C9 counterexample: `getCorsHeaders` of src/handleCors.ts
answers a disallowed origin with an empty-valued
`Access-Control-Allow-Origin` header rather than a default origin. -/
theorem getCorsHeaders_empty_for_disallowed :
    headerValue "Access-Control-Allow-Origin"
      (getCorsHeaders (some "https://evil.example")) = some "" := by
  simp [getCorsHeaders, headerValue, allowedOriginsHandleCors]

/-- Claim C9 (amended): both CORS builders always attach an
`Access-Control-Allow-Origin` header and echo an allow-listed origin; a
disallowed or absent origin falls back to the first allow-list entry in
the assertion-checker `handleCors`, but to the empty string in
`getCorsHeaders`. -/
theorem cors_header_always_attached (origin : Option String) :
    headerValue "Access-Control-Allow-Origin" (getCorsHeaders origin) =
      some (if allowedOriginsHandleCors.contains (origin.getD "") then origin.getD ""
            else "") ∧
    headerValue "Access-Control-Allow-Origin" (handleCorsHeaders origin) =
      some (match origin with
        | some o =>
          if allowedOriginsAssertionChecker.contains o then o
          else "http://localhost:5173"
        | none => "http://localhost:5173") := by
  constructor
  · cases origin <;> simp [getCorsHeaders, headerValue]
  · cases origin <;> simp [handleCorsHeaders, headerValue, allowedOriginsAssertionChecker]

/-- Helper: a prefix mismatch refutes a `dropCI` match on any extension. -/
theorem dropCI_none_of_ciMismatch (lit p : List Char) (h : ciMismatch lit p = true) :
    ∀ X, dropCI lit (p ++ X) = none := by
  induction lit generalizing p with
  | nil => simp [ciMismatch] at h
  | cons a as ih =>
    cases p with
    | nil => simp [ciMismatch] at h
    | cons b bs =>
      intro X
      simp only [ciMismatch, Bool.or_eq_true, decide_eq_true_eq] at h
      rcases h with h | h
      · simp [dropCI, h]
      · by_cases hab : a.toLower = b.toLower
        · simpa [dropCI, hab] using ih bs h X
        · simp [dropCI, hab]

/-- Helper: if every label mismatches on the prefix, `anyLabelAt` fails
on any extension. -/
theorem anyLabelAt_none_of_mismatch (labs : List String) (p : List Char)
    (h : ∀ lab ∈ labs, ciMismatch lab.data p = true) :
    ∀ X, anyLabelAt labs (p ++ X) = none := by
  induction labs with
  | nil => intro X; rfl
  | cons lab labs ih =>
    intro X
    simp only [anyLabelAt]
    rw [dropCI_none_of_ciMismatch lab.data p (h lab (List.mem_cons_self lab labs)) X]
    exact ih (fun l hl => h l (List.mem_cons_of_mem lab hl)) X

/-- Helper: a scan skips a whole segment when every position of the
segment refutes the label, regardless of what follows the segment. -/
theorem scanFor_posDead (labelAt after : List Char → Option (List Char))
    (refute : List Char → Bool)
    (hsound : ∀ p X, refute p = true → labelAt (p ++ X) = none) :
    ∀ seg rest, posDead refute seg = true →
      scanFor labelAt after (seg ++ rest) = scanFor labelAt after rest := by
  intro seg
  induction seg with
  | nil => intro rest _; rfl
  | cons c r ih =>
    intro rest h
    simp only [posDead, Bool.and_eq_true] at h
    have hl := hsound (c :: r) rest h.1
    simp only [List.cons_append] at hl ⊢
    simp only [scanFor, hl]
    exact ih rest h.2

/-- Helper: a scan skips a segment when the label propositionally fails
at every position of the segment (used for the symbolic statement part). -/
theorem scanFor_append_none (labelAt after : List Char → Option (List Char)) :
    ∀ (seg rest : List Char),
      (∀ i, i < seg.length → labelAt (seg.drop i ++ rest) = none) →
      scanFor labelAt after (seg ++ rest) = scanFor labelAt after rest := by
  intro seg
  induction seg with
  | nil => intro rest _; rfl
  | cons c r ih =>
    intro rest h
    have h0 := h 0 (Nat.succ_pos _)
    simp only [List.drop_zero] at h0
    simp only [List.cons_append] at h0 ⊢
    simp only [scanFor, h0]
    exact ih rest (fun i hi => by
      have := h (i + 1) (Nat.succ_lt_succ hi)
      simpa using this)

/-- Helper: a label containing a colon (and no newline) cannot match at a
position inside colon-free text followed by a newline (or the end). -/
theorem dropCI_none_boundary (lit : List Char)
    (hnl : ∀ a ∈ lit, a.toLower ≠ '\n') (hco : ∃ a ∈ lit, a.toLower = ':') :
    ∀ (mid rest : List Char), (∀ c ∈ mid, c.toLower ≠ ':') →
      (rest.head? = some '\n' ∨ rest = []) → dropCI lit (mid ++ rest) = none := by
  induction lit with
  | nil => rcases hco with ⟨a, ha, _⟩; exact absurd ha (List.not_mem_nil a)
  | cons a as ih =>
    intro mid rest hmid hrest
    cases mid with
    | nil =>
      rcases hrest with h | h
      · cases rest with
        | nil => exact Option.noConfusion h
        | cons b bs =>
          simp only [List.head?_cons, Option.some.injEq] at h
          subst h
          have : a.toLower ≠ '\n' := hnl a (List.mem_cons_self a as)
          simp only [List.nil_append, dropCI]
          rw [if_neg (by simpa using this)]
      · subst h; rfl
    | cons m ms =>
      by_cases hco' : a.toLower = ':'
      · have hm : a.toLower ≠ m.toLower := by
          intro hEq
          exact hmid m (List.mem_cons_self m ms) (hEq ▸ hco')
        simp only [List.cons_append, dropCI]
        rw [if_neg hm]
      · have hco2 : ∃ b ∈ as, b.toLower = ':' := by
          rcases hco with ⟨b, hb, hb2⟩
          rcases List.mem_cons.1 hb with h | h
          · exact absurd (h ▸ hb2) hco'
          · exact ⟨b, h, hb2⟩
        by_cases hm : a.toLower = m.toLower
        · simp only [List.cons_append, dropCI]
          rw [if_pos hm]
          exact ih (fun b hb => hnl b (List.mem_cons_of_mem a hb)) hco2 ms rest
            (fun c hc => hmid c (List.mem_cons_of_mem m hc)) hrest
        · simp only [List.cons_append, dropCI]
          rw [if_neg hm]

/-- Helper: `anyLabelAt` fails when each label fails. -/
theorem anyLabelAt_none_of_each (labs : List String) (l : List Char)
    (h : ∀ lab ∈ labs, dropCI lab.data l = none) : anyLabelAt labs l = none := by
  induction labs with
  | nil => rfl
  | cons lab labs ih =>
    simp only [anyLabelAt]
    rw [h lab (List.mem_cons_self lab labs)]
    exact ih (fun l2 h2 => h l2 (List.mem_cons_of_mem lab h2))

/-- Helper: when a newline-free label does match inside clean text
followed by a newline (or the end), the remainder is again clean text
followed by the same tail. -/
theorem dropCI_some_decomp (lit : List Char) (hnl : ∀ a ∈ lit, a.toLower ≠ '\n') :
    ∀ (mid rest tail : List Char), (rest.head? = some '\n' ∨ rest = []) →
      dropCI lit (mid ++ rest) = some tail →
      ∃ mid2, tail = mid2 ++ rest ∧ (∀ c ∈ mid2, c ∈ mid) := by
  induction lit with
  | nil =>
    intro mid rest tail _ h
    simp only [dropCI, Option.some.injEq] at h
    exact ⟨mid, h.symm, fun c hc => hc⟩
  | cons a as ih =>
    intro mid rest tail hrest h
    cases mid with
    | nil =>
      exfalso
      rcases hrest with h2 | h2
      · cases rest with
        | nil => exact Option.noConfusion h2
        | cons b bs =>
          simp only [List.head?_cons, Option.some.injEq] at h2
          subst h2
          have : a.toLower ≠ '\n' := hnl a (List.mem_cons_self a as)
          simp only [List.nil_append, dropCI] at h
          rw [if_neg (by simpa using this)] at h
          exact Option.noConfusion h
      · subst h2
        simp only [List.append_nil, dropCI] at h
        exact Option.noConfusion h
    | cons m ms =>
      simp only [List.cons_append, dropCI] at h
      by_cases hm : a.toLower = m.toLower
      · rw [if_pos hm] at h
        rcases ih (fun b hb => hnl b (List.mem_cons_of_mem a hb)) ms rest tail hrest h
          with ⟨mid2, h1, h2⟩
        exact ⟨mid2, h1, fun c hc => List.mem_cons_of_mem m (h2 c hc)⟩
      · rw [if_neg hm] at h
        exact Option.noConfusion h

/-- Helper: the `Fact.?checkable:`/`Verifiable:` label cannot match at a
position inside colon-free text followed by a newline (or the end). -/
theorem factLabelAt_none_boundary (mid rest : List Char)
    (hmid : ∀ c ∈ mid, c.toLower ≠ ':' ∧ c ≠ '\n')
    (hrest : rest.head? = some '\n' ∨ rest = []) :
    factLabelAt (mid ++ rest) = none := by
  have hver : dropCI "verifiable:".data (mid ++ rest) = none :=
    dropCI_none_boundary "verifiable:".data (by decide) (by decide) mid rest
      (fun c hc => (hmid c hc).1) hrest
  cases hfact : dropCI "fact".data (mid ++ rest) with
  | none => simp only [factLabelAt, hfact, hver]
  | some r =>
    rcases dropCI_some_decomp "fact".data (by decide) mid rest r hrest hfact
      with ⟨mid2, hr, hsub⟩
    have hmid2 : ∀ c ∈ mid2, c.toLower ≠ ':' ∧ c ≠ '\n' :=
      fun c hc => hmid c (hsub c hc)
    have hchk : ∀ (mid3 : List Char), (∀ c ∈ mid3, c.toLower ≠ ':') →
        dropCI "checkable:".data (mid3 ++ rest) = none := fun mid3 h3 =>
      dropCI_none_boundary "checkable:".data (by decide) (by decide) mid3 rest h3 hrest
    subst hr
    cases mid2 with
    | nil =>
      rcases hrest with h2 | h2
      · cases rest with
        | nil => exact Option.noConfusion h2
        | cons b bs =>
          simp only [List.head?_cons, Option.some.injEq] at h2
          subst h2
          have h0 := hchk [] (by intro c hc; exact absurd hc (List.not_mem_nil c))
          simp only [List.nil_append] at h0
          simp [factLabelAt, hfact, h0]
      · subst h2
        simp only [List.append_nil, List.nil_append] at hfact
        simp only [List.append_nil, factLabelAt, hfact]
    | cons c cs =>
      have hc : c ≠ '\n' := (hmid2 c (List.mem_cons_self c cs)).2
      simp only [factLabelAt, hfact, List.cons_append]
      rw [if_neg hc]
      have h1 : dropCI "checkable:".data (cs ++ rest) = none :=
        hchk cs (fun d hd => (hmid2 d (List.mem_cons_of_mem c hd)).1)
      have h2 : dropCI "checkable:".data ((c :: cs) ++ rest) = none :=
        hchk (c :: cs) (fun d hd => (hmid2 d hd).1)
      simp only [List.cons_append] at h1 h2
      rw [h1, h2]

/-- Helper: soundness of `numDotRun`. -/
theorem numDotRun_sound : ∀ (r X : List Char), numDotRun r = true →
    (((r ++ X).dropWhile Char.isDigit).head? == some '.') = false := by
  intro r
  induction r with
  | nil => intro X h; exact absurd h (by simp [numDotRun])
  | cons d r ih =>
    intro X h
    by_cases hd : d.isDigit
    · simp only [numDotRun, hd, if_true] at h
      simpa [List.dropWhile_cons, hd] using ih X h
    · simp [numDotRun, hd] at h
      simp [List.dropWhile_cons, hd, h]

/-- Helper: soundness of `numDotRefute`. -/
theorem numDotAt_false_of_refute (p X : List Char) (h : numDotRefute p = true) :
    numDotAt (p ++ X) = false := by
  cases p with
  | nil => exact absurd h (by simp [numDotRefute])
  | cons c r =>
    by_cases hc : c.isDigit
    · simp only [numDotRefute, hc, if_true] at h
      simp [numDotAt, List.dropWhile_cons, hc, numDotRun_sound r X h]
    · simp [numDotAt, hc]

/-- Helper: a prefix mismatch refutes `startsWithChars` on any
extension. -/
theorem startsWithChars_false_of_csMismatch (lit p : List Char)
    (h : csMismatch lit p = true) : ∀ X, startsWithChars lit (p ++ X) = false := by
  induction lit generalizing p with
  | nil => exact absurd h (by simp [csMismatch])
  | cons a as ih =>
    cases p with
    | nil => exact absurd h (by simp [csMismatch])
    | cons b bs =>
      intro X
      simp only [csMismatch, Bool.or_eq_true, decide_eq_true_eq] at h
      rcases h with h | h
      · simp [startsWithChars, h]
      · by_cases hab : a = b
        · simpa [startsWithChars, hab] using ih bs h X
        · simp [startsWithChars, hab]

/-- Helper: soundness of `nlRefute`. -/
theorem nlnl_false_of_refute (p X : List Char) (hp : p ≠ []) (h : nlRefute p = true) :
    startsWithChars "\n\n".data (p ++ X) = false := by
  cases p with
  | nil => exact absurd rfl hp
  | cons c r =>
    by_cases hc : c = '\n'
    · subst hc
      cases r with
      | nil => exact absurd h (by simp [nlRefute])
      | cons d r2 =>
        simp [nlRefute] at h
        show startsWithChars ['\n', '\n'] _ = false
        simp [startsWithChars, Ne.symm h]
    · show startsWithChars ['\n', '\n'] _ = false
      simp [startsWithChars, Ne.symm hc]

/-- Helper: soundness of `cutRefute`. -/
theorem sectionCutAt_false_of_refute (p X : List Char) (hp : p ≠ [])
    (h : cutRefute p = true) : sectionCutAt (p ++ X) = false := by
  simp only [cutRefute, Bool.and_eq_true] at h
  have h1 := numDotAt_false_of_refute p X h.1.1
  have h2 := startsWithChars_false_of_csMismatch "Assertion ".data p h.1.2 X
  have h3 := nlnl_false_of_refute p X hp h.2
  simp [sectionCutAt, h1, h3, assertionLabelAt, h2]

/-- Helper: `splitGo` passes over a whole segment when every position of
the segment computably refutes a cut. -/
theorem splitGo_append_refuted : ∀ (seg rest acc : List Char),
    posDead cutRefute seg = true →
    splitGo (seg ++ rest) acc = splitGo rest (seg.reverse ++ acc) := by
  intro seg
  induction seg with
  | nil => intro rest acc _; simp
  | cons c r ih =>
    intro rest acc h
    simp only [posDead, Bool.and_eq_true] at h
    have hcut : sectionCutAt ((c :: r) ++ rest) = false :=
      sectionCutAt_false_of_refute (c :: r) rest (by simp) h.1
    simp only [List.cons_append] at hcut ⊢
    simp only [splitGo, hcut, Bool.false_and, Bool.not_false, if_neg]
    rw [ih rest (c :: acc) h.2]
    simp

/-- Helper: `splitGo` passes over a segment when a cut propositionally
fails at each of its positions. -/
theorem splitGo_append_nocut : ∀ (seg rest acc : List Char),
    (∀ i, i < seg.length → sectionCutAt (seg.drop i ++ rest) = false) →
    splitGo (seg ++ rest) acc = splitGo rest (seg.reverse ++ acc) := by
  intro seg
  induction seg with
  | nil => intro rest acc _; simp
  | cons c r ih =>
    intro rest acc h
    have hcut : sectionCutAt ((c :: r) ++ rest) = false := by
      have := h 0 (Nat.succ_pos _)
      simpa using this
    simp only [List.cons_append] at hcut ⊢
    simp only [splitGo, hcut, Bool.false_and, Bool.not_false, if_neg]
    rw [ih rest (c :: acc) (fun i hi => by
      have := h (i + 1) (Nat.succ_lt_succ hi)
      simpa using this)]
    simp

/-- Helper: the very first position never cuts (empty accumulator). -/
theorem splitGo_step_nilacc (c : Char) (rest : List Char) :
    splitGo (c :: rest) [] = splitGo rest [c] := by
  simp [splitGo]

/-- Helper: a cut position with a nonempty accumulator closes the current
section. -/
theorem splitGo_step_cut (c : Char) (rest acc : List Char)
    (h1 : sectionCutAt (c :: rest) = true) (h2 : acc ≠ []) :
    splitGo (c :: rest) acc = acc.reverse :: splitGo rest [c] := by
  have h3 : acc.isEmpty = false := by cases acc with
    | nil => exact absurd rfl h2
    | cons a as => rfl
  simp [splitGo, h1, h3]

/-- Helper: a newline-free literal matching clean text followed by a
newline-headed (or empty) tail fits inside the clean text. -/
theorem startsWith_le_length (lit : List Char) (hnl : '\n' ∉ lit) :
    ∀ (mid rest : List Char), (rest.head? = some '\n' ∨ rest = []) →
      startsWithChars lit (mid ++ rest) = true → lit.length ≤ mid.length := by
  induction lit with
  | nil => intro mid rest _ _; simp
  | cons a as ih =>
    intro mid rest hrest h
    cases mid with
    | nil =>
      exfalso
      rcases hrest with h2 | h2
      · cases rest with
        | nil => exact Option.noConfusion h2
        | cons b bs =>
          simp only [List.head?_cons, Option.some.injEq] at h2
          subst h2
          simp only [List.nil_append, startsWithChars, Bool.and_eq_true,
            decide_eq_true_eq] at h
          exact hnl (h.1 ▸ List.mem_cons_self a as)
      · subst h2
        simp [startsWithChars] at h
    | cons m ms =>
      simp only [List.cons_append, startsWithChars, Bool.and_eq_true,
        decide_eq_true_eq] at h
      have := ih (fun hmem => hnl (List.mem_cons_of_mem a hmem)) ms rest hrest h.2
      simpa [List.length_cons] using this

/-- Helper: no section cut occurs at a position inside digit-free,
newline-free text followed by a newline-headed (or empty) tail. -/
theorem sectionCutAt_false_clean (mid rest : List Char) (hne : mid ≠ [])
    (hclean : ∀ c ∈ mid, c.isDigit = false ∧ c ≠ '\n')
    (hrest : rest.head? = some '\n' ∨ rest = []) :
    sectionCutAt (mid ++ rest) = false := by
  cases mid with
  | nil => exact absurd rfl hne
  | cons m ms =>
    have hm := hclean m (List.mem_cons_self m ms)
    have h1 : numDotAt ((m :: ms) ++ rest) = false := by
      simp [numDotAt, hm.1]
    have h3 : startsWithChars "\n\n".data ((m :: ms) ++ rest) = false := by
      show startsWithChars ['\n', '\n'] _ = false
      simp [startsWithChars, Ne.symm hm.2]
    have h2 : assertionLabelAt ((m :: ms) ++ rest) = false := by
      cases hsw : startsWithChars "Assertion ".data ((m :: ms) ++ rest) with
      | false =>
        simp only [assertionLabelAt]
        rw [hsw]
        simp
      | true =>
        have hlen : ("Assertion ".data).length ≤ (m :: ms).length :=
          startsWith_le_length "Assertion ".data (by decide) (m :: ms) rest hrest hsw
        have hdrop : ((m :: ms) ++ rest).drop 10 = (m :: ms).drop 10 ++ rest :=
          List.drop_append_of_le_length (by simpa using hlen)
        have hhead : ∀ d, ((m :: ms).drop 10 ++ rest).head? = some d →
            d.isDigit = false := by
          intro d hd
          cases hdd : (m :: ms).drop 10 with
          | nil =>
            rw [hdd, List.nil_append] at hd
            rcases hrest with h4 | h4
            · rw [h4] at hd
              cases hd
              exact rfl
            · rw [h4] at hd
              exact Option.noConfusion hd
          | cons e es =>
            rw [hdd, List.cons_append, List.head?_cons] at hd
            injection hd with hde
            subst hde
            have hdm : e ∈ (m :: ms) :=
              List.mem_of_mem_drop (by rw [hdd]; exact List.mem_cons_self e es)
            exact (hclean e hdm).1
        simp only [assertionLabelAt, hsw, Bool.true_and, hdrop]
        cases hh : ((m :: ms).drop 10 ++ rest).head? with
        | none => simp [hh]
        | some d => simp [hh, hhead d hh]
    show sectionCutAt ((m :: ms) ++ rest) = false
    simp only [sectionCutAt, Bool.or_eq_false_iff]
    exact ⟨⟨by simpa using h1, by simpa using h2⟩, by simpa using h3⟩

/-- Helper: `takeWhile` passes over a first list all of whose elements
satisfy the predicate. -/
theorem takeWhile_append_all {p : Char → Bool} :
    ∀ (l1 l2 : List Char), (∀ c ∈ l1, p c = true) →
      (l1 ++ l2).takeWhile p = l1 ++ l2.takeWhile p := by
  intro l1
  induction l1 with
  | nil => intro l2 _; rfl
  | cons c r ih =>
    intro l2 h
    simp only [List.cons_append, List.takeWhile_cons,
      h c (List.mem_cons_self c r), if_true]
    rw [ih l2 (fun d hd => h d (List.mem_cons_of_mem c hd))]

/-- Helper: `dropWhile` is the identity when the head fails the
predicate. -/
theorem dropWhile_eq_self_of_head {p : Char → Bool} (l : List Char)
    (h : ∀ c, l.head? = some c → p c = false) : l.dropWhile p = l := by
  cases l with
  | nil => rfl
  | cons c r => simp [List.dropWhile_cons, h c rfl]

/-- Helper: `jsTrim` is the identity on text with non-whitespace first
and last characters. -/
theorem jsTrim_eq_self (l : List Char)
    (hhead : ∀ c, l.head? = some c → jsWs c = false)
    (hlast : ∀ c, l.getLast? = some c → jsWs c = false) : jsTrim l = l := by
  unfold jsTrim
  rw [dropWhile_eq_self_of_head l hhead]
  rw [dropWhile_eq_self_of_head l.reverse (fun c hc => hlast c (by
    rwa [List.head?_reverse] at hc))]
  exact List.reverse_reverse l

/-- Helper: the value of `\s*(.+?)(?=\n|$)` after a label followed by one
space, clean text and a newline-headed (or empty) tail: exactly the
text. -/
theorem lineCapture_clean (sd tail1 : List Char) (hne : sd ≠ [])
    (hhead : ∀ c, sd.head? = some c → jsWs c = false)
    (hnl : ∀ c ∈ sd, c ≠ '\n')
    (htail : tail1.head? = some '\n' ∨ tail1 = []) :
    lineCapture (' ' :: (sd ++ tail1)) = some sd := by
  cases sd with
  | nil => exact absurd rfl hne
  | cons c r =>
    have hc : jsWs c = false := hhead c rfl
    have hw : wsCount (' ' :: ((c :: r) ++ tail1)) = 1 := by
      have hsp : jsWs ' ' = true := by decide
      simp [wsCount, List.takeWhile_cons, List.cons_append, hsp, hc]
    unfold lineCapture
    rw [hw]
    show lineCaptureGo (' ' :: ((c :: r) ++ tail1)) (0 + 1) = some (c :: r)
    simp only [lineCaptureGo, List.drop_succ_cons, List.drop_zero,
      List.cons_append, List.head?_cons]
    have hcnl : c ≠ '\n' := hnl c (List.mem_cons_self c r)
    rw [if_neg (by simpa using hcnl)]
    have hall : ∀ d ∈ (c :: r), (decide (d ≠ '\n')) = true := by
      intro d hd
      simpa using hnl d hd
    have : ((c :: r) ++ tail1).takeWhile (fun d => decide (d ≠ '\n')) = (c :: r) := by
      rw [takeWhile_append_all (c :: r) tail1 hall]
      rcases htail with h | h
      · cases tail1 with
        | nil => exact Option.noConfusion h
        | cons b bs =>
          simp only [List.head?_cons, Option.some.injEq] at h
          subst h
          simp [List.takeWhile_cons]
      · subst h
        simp
    simpa using this

/-- Helper: soundness of `labsMismatch`. -/
theorem anyLabelAt_none_of_labsMismatch (labs : List String) (p X : List Char)
    (h : labsMismatch labs p = true) : anyLabelAt labs (p ++ X) = none := by
  apply anyLabelAt_none_of_each
  intro lab hlab
  simp only [labsMismatch, List.all_eq_true] at h
  exact dropCI_none_of_ciMismatch lab.data p (h lab hlab) X

/-- Helper: soundness of `factMismatch`. -/
theorem factLabelAt_none_of_factMismatch (p X : List Char)
    (h : factMismatch p = true) : factLabelAt (p ++ X) = none := by
  simp only [factMismatch, Bool.and_eq_true] at h
  have h1 := dropCI_none_of_ciMismatch "fact".data p h.1 X
  have h2 := dropCI_none_of_ciMismatch "verifiable:".data p h.2 X
  simp [factLabelAt, h1, h2]

/-- Helper: a scan succeeds at the head position when the label matches
and the capture succeeds there. -/
theorem scanFor_cons_hit (labelAt after : List Char → Option (List Char))
    (c : Char) (rest tail r : List Char)
    (h1 : labelAt (c :: rest) = some tail) (h2 : after tail = some r) :
    scanFor labelAt after (c :: rest) = some r := by
  simp [scanFor, h1, h2]

/-- Helper: the splitter cuts the markdown rendering into the
statement-carrying head section and two numeral-headed fragments: the
split regex `(?=\d+\.)` matches just before the decimal confidences. -/
theorem splitSections_mdAssertion (s : String)
    (hclean : ∀ c ∈ s.data, c.isDigit = false ∧ c ≠ '\n') :
    splitSections (mdAssertion s).data =
      [("Assertion 1:\nStatement: " ++ s ++ "\nFact-checkable: yes\nModel Confidence: ").data,
       "0.9\nUser Confidence: ".data, "0.8".data] := by
  have hnocut : ∀ i, i < s.data.length →
      sectionCutAt (s.data.drop i ++
        "\nFact-checkable: yes\nModel Confidence: 0.9\nUser Confidence: 0.8".data) = false := by
    intro i hi
    apply sectionCutAt_false_clean
    · intro hEq
      have hlen : (s.data.drop i).length = 0 := by rw [hEq]; rfl
      rw [List.length_drop] at hlen
      omega
    · intro c hc
      exact hclean c (List.mem_of_mem_drop hc)
    · left; rfl
  have hdata : (mdAssertion s).data =
      'A' :: ("ssertion 1:\nStatement: ".data ++ (s.data ++
        "\nFact-checkable: yes\nModel Confidence: 0.9\nUser Confidence: 0.8".data)) := by
    show ("Assertion 1:\nStatement: " ++ s ++
      "\nFact-checkable: yes\nModel Confidence: 0.9\nUser Confidence: 0.8").data = _
    rw [String.data_append, String.data_append]
    rfl
  unfold splitSections
  rw [hdata, splitGo_step_nilacc]
  rw [splitGo_append_refuted "ssertion 1:\nStatement: ".data _ ['A'] (by decide)]
  rw [splitGo_append_nocut s.data _ _ hnocut]
  rw [show ("\nFact-checkable: yes\nModel Confidence: 0.9\nUser Confidence: 0.8".data :
        List Char) =
      "\nFact-checkable: yes\nModel Confidence: ".data ++
        "0.9\nUser Confidence: 0.8".data from rfl]
  rw [splitGo_append_refuted "\nFact-checkable: yes\nModel Confidence: ".data _ _ (by decide)]
  rw [show ("0.9\nUser Confidence: 0.8".data : List Char) =
      '0' :: ".9\nUser Confidence: 0.8".data from rfl]
  rw [splitGo_step_cut '0' _ _ (by decide) (by simp)]
  rw [show splitGo ".9\nUser Confidence: 0.8".data ['0'] =
      ["0.9\nUser Confidence: ".data, "0.8".data] from by decide]
  simp [String.data_append, List.reverse_append, List.append_assoc]

/-- Helper: `anyLabelAt` with boundary-failing labels fails on clean text
followed by a newline-headed or empty tail. -/
theorem anyLabelAt_none_boundary (labs : List String)
    (hl : ∀ lab ∈ labs, (∀ a ∈ lab.data, a.toLower ≠ '\n') ∧
      (∃ a ∈ lab.data, a.toLower = ':'))
    (mid rest : List Char) (hmid : ∀ c ∈ mid, c.toLower ≠ ':')
    (hrest : rest.head? = some '\n' ∨ rest = []) :
    anyLabelAt labs (mid ++ rest) = none := by
  apply anyLabelAt_none_of_each
  intro lab hlab
  exact dropCI_none_boundary lab.data (hl lab hlab).1 (hl lab hlab).2 mid rest hmid hrest

/-- Helper: parse of the head section of the markdown rendering: the
statement survives intact and the fact-checkable flag is read, while both
confidences stay at the 0.5 default because the section was severed just
before the decimal numerals. -/
theorem parseSection_mdHead (s : String)
    (hne : s.data ≠ [])
    (hclean : ∀ c ∈ s.data, c.isDigit = false ∧ c ≠ '\n' ∧ c.toLower ≠ ':')
    (hhead : ∀ c, s.data.head? = some c → jsWs c = false)
    (hlast : ∀ c, s.data.getLast? = some c → jsWs c = false) :
    parseSection ("Assertion 1:\nStatement: " ++ s ++
      "\nFact-checkable: yes\nModel Confidence: ").data =
      some ⟨s, true, some (mkRat 1 2), some (mkRat 1 2), none⟩ := by
  have hsec : ("Assertion 1:\nStatement: " ++ s ++
      "\nFact-checkable: yes\nModel Confidence: ").data =
      "Assertion 1:\nStatement: ".data ++
        (s.data ++ "\nFact-checkable: yes\nModel Confidence: ".data) := by
    rw [String.data_append, String.data_append, List.append_assoc]
  have hsec2 : ("Assertion 1:\nStatement: " ++ s ++
      "\nFact-checkable: yes\nModel Confidence: ").data =
      "Assertion 1:\n".data ++ ("Statement: ".data ++
        (s.data ++ "\nFact-checkable: yes\nModel Confidence: ".data)) := by
    rw [hsec]; rfl
  have hstmt : scanFor (anyLabelAt ["statement:", "claim:"]) lineCapture
      (("Assertion 1:\nStatement: " ++ s ++
        "\nFact-checkable: yes\nModel Confidence: ").data) = some s.data := by
    rw [hsec2]
    rw [scanFor_posDead _ _ (labsMismatch ["statement:", "claim:"])
      (fun p X hp => anyLabelAt_none_of_labsMismatch _ p X hp)
      "Assertion 1:\n".data _ (by decide)]
    rw [show ("Statement: ".data ++
        (s.data ++ "\nFact-checkable: yes\nModel Confidence: ".data)) =
      'S' :: ("tatement: ".data ++
        (s.data ++ "\nFact-checkable: yes\nModel Confidence: ".data)) from rfl]
    refine scanFor_cons_hit _ _ _ _
      (' ' :: (s.data ++ "\nFact-checkable: yes\nModel Confidence: ".data)) s.data ?_ ?_
    · rfl
    · exact lineCapture_clean s.data "\nFact-checkable: yes\nModel Confidence: ".data
        hne hhead (fun c hc => (hclean c hc).2.1) (Or.inl (by rfl))
  have hfc : scanFor factLabelAt lineCapture
      (("Assertion 1:\nStatement: " ++ s ++
        "\nFact-checkable: yes\nModel Confidence: ").data) = some "yes".data := by
    rw [hsec]
    rw [scanFor_posDead _ _ factMismatch factLabelAt_none_of_factMismatch
      "Assertion 1:\nStatement: ".data _ (by decide)]
    rw [scanFor_append_none factLabelAt lineCapture s.data
      "\nFact-checkable: yes\nModel Confidence: ".data (fun i hi =>
      factLabelAt_none_boundary (s.data.drop i)
        "\nFact-checkable: yes\nModel Confidence: ".data
        (fun c hc => ⟨(hclean c (List.mem_of_mem_drop hc)).2.2,
          (hclean c (List.mem_of_mem_drop hc)).2.1⟩) (Or.inl (by rfl)))]
    decide
  have hmc : scanFor (anyLabelAt ["model confidence:", "confidence:"]) numCapture
      (("Assertion 1:\nStatement: " ++ s ++
        "\nFact-checkable: yes\nModel Confidence: ").data) = none := by
    rw [hsec]
    rw [scanFor_posDead _ _ (labsMismatch ["model confidence:", "confidence:"])
      (fun p X hp => anyLabelAt_none_of_labsMismatch _ p X hp)
      "Assertion 1:\nStatement: ".data _ (by decide)]
    rw [scanFor_append_none _ numCapture s.data
      "\nFact-checkable: yes\nModel Confidence: ".data (fun i hi =>
      anyLabelAt_none_boundary _ (by decide) (s.data.drop i)
        "\nFact-checkable: yes\nModel Confidence: ".data
        (fun c hc => (hclean c (List.mem_of_mem_drop hc)).2.2) (Or.inl (by rfl)))]
    decide
  have huc : scanFor (anyLabelAt ["user confidence:"]) numCapture
      (("Assertion 1:\nStatement: " ++ s ++
        "\nFact-checkable: yes\nModel Confidence: ").data) = none := by
    rw [hsec]
    rw [scanFor_posDead _ _ (labsMismatch ["user confidence:"])
      (fun p X hp => anyLabelAt_none_of_labsMismatch _ p X hp)
      "Assertion 1:\nStatement: ".data _ (by decide)]
    rw [scanFor_append_none _ numCapture s.data
      "\nFact-checkable: yes\nModel Confidence: ".data (fun i hi =>
      anyLabelAt_none_boundary _ (by decide) (s.data.drop i)
        "\nFact-checkable: yes\nModel Confidence: ".data
        (fun c hc => (hclean c (List.mem_of_mem_drop hc)).2.2) (Or.inl (by rfl)))]
    decide
  have hctx : scanFor (anyLabelAt ["context:", "analysis:", "explanation:"]) dotAllCapture
      (("Assertion 1:\nStatement: " ++ s ++
        "\nFact-checkable: yes\nModel Confidence: ").data) = none := by
    rw [hsec]
    rw [scanFor_posDead _ _ (labsMismatch ["context:", "analysis:", "explanation:"])
      (fun p X hp => anyLabelAt_none_of_labsMismatch _ p X hp)
      "Assertion 1:\nStatement: ".data _ (by decide)]
    rw [scanFor_append_none _ dotAllCapture s.data
      "\nFact-checkable: yes\nModel Confidence: ".data (fun i hi =>
      anyLabelAt_none_boundary _ (by decide) (s.data.drop i)
        "\nFact-checkable: yes\nModel Confidence: ".data
        (fun c hc => (hclean c (List.mem_of_mem_drop hc)).2.2) (Or.inl (by rfl)))]
    decide
  have hive : s.data.isEmpty = false := by
    cases hd : s.data with
    | nil => exact absurd hd hne
    | cons c r => rfl
  simp only [parseSection, hstmt, hfc, hmc, huc, hctx,
    jsTrim_eq_self s.data hhead hlast, hive,
    show zodConfidenceOk (some (mkRat 1 2)) = true from by decide,
    show yesTrueVerifiable "yes".data = true from by decide]
  rw [if_neg (by simp), if_pos (by simp)]

/-- Helper: the whole markdown parse of the rendering: exactly one
assertion, with the original statement, fact-checkable true, and both
confidences at the 0.5 default. -/
theorem parseMarkdown_mdAssertion (s : String)
    (hne : s.data ≠ [])
    (hclean : ∀ c ∈ s.data, c.isDigit = false ∧ c ≠ '\n' ∧ c.toLower ≠ ':')
    (hhead : ∀ c, s.data.head? = some c → jsWs c = false)
    (hlast : ∀ c, s.data.getLast? = some c → jsWs c = false) :
    parseMarkdownAssertions (mdAssertion s) =
      [⟨s, true, some (mkRat 1 2), some (mkRat 1 2), none⟩] := by
  unfold parseMarkdownAssertions
  rw [splitSections_mdAssertion s (fun c hc => ⟨(hclean c hc).1, (hclean c hc).2.1⟩)]
  simp only [List.filterMap_cons, List.filterMap_nil,
    parseSection_mdHead s hne hclean hhead hlast,
    show parseSection "0.9\nUser Confidence: ".data = none from by decide,
    show parseSection "0.8".data = none from by decide]

/-- Helper: the statement-only rendering is a single section. -/
theorem splitSections_mdStatementOnly (s : String)
    (hclean : ∀ c ∈ s.data, c.isDigit = false ∧ c ≠ '\n') :
    splitSections (mdStatementOnly s).data = [(mdStatementOnly s).data] := by
  have hnocut : ∀ i, i < s.data.length →
      sectionCutAt (s.data.drop i ++ ([] : List Char)) = false := by
    intro i hi
    apply sectionCutAt_false_clean
    · intro hEq
      have hlen : (s.data.drop i).length = 0 := by rw [hEq]; rfl
      rw [List.length_drop] at hlen
      omega
    · intro c hc
      exact hclean c (List.mem_of_mem_drop hc)
    · right; rfl
  have hdata : (mdStatementOnly s).data =
      'A' :: ("ssertion 1:\nStatement: ".data ++ (s.data ++ ([] : List Char))) := by
    show ("Assertion 1:\nStatement: " ++ s).data = _
    rw [String.data_append, List.append_nil]
    rfl
  unfold splitSections
  rw [hdata, splitGo_step_nilacc]
  rw [splitGo_append_refuted "ssertion 1:\nStatement: ".data _ ['A'] (by decide)]
  rw [splitGo_append_nocut s.data [] _ hnocut]
  rw [show ∀ acc : List Char, splitGo [] acc = [acc.reverse] from fun acc => rfl]
  simp [List.reverse_append, List.append_assoc]

/-- Helper: parse of the statement-only section: all the per-field
defaults apply. -/
theorem parseSection_mdStatementOnly (s : String)
    (hne : s.data ≠ [])
    (hclean : ∀ c ∈ s.data, c.isDigit = false ∧ c ≠ '\n' ∧ c.toLower ≠ ':')
    (hhead : ∀ c, s.data.head? = some c → jsWs c = false)
    (hlast : ∀ c, s.data.getLast? = some c → jsWs c = false) :
    parseSection (mdStatementOnly s).data =
      some ⟨s, false, some (mkRat 1 2), some (mkRat 1 2), none⟩ := by
  have hsec : (mdStatementOnly s).data =
      "Assertion 1:\nStatement: ".data ++ (s.data ++ ([] : List Char)) := by
    show ("Assertion 1:\nStatement: " ++ s).data = _
    rw [String.data_append, List.append_nil]
  have hsec2 : (mdStatementOnly s).data =
      "Assertion 1:\n".data ++ ("Statement: ".data ++ (s.data ++ ([] : List Char))) := by
    rw [hsec]; rfl
  have hstmt : scanFor (anyLabelAt ["statement:", "claim:"]) lineCapture
      (mdStatementOnly s).data = some s.data := by
    rw [hsec2]
    rw [scanFor_posDead _ _ (labsMismatch ["statement:", "claim:"])
      (fun p X hp => anyLabelAt_none_of_labsMismatch _ p X hp)
      "Assertion 1:\n".data _ (by decide)]
    rw [show ("Statement: ".data ++ (s.data ++ ([] : List Char))) =
      'S' :: ("tatement: ".data ++ (s.data ++ ([] : List Char))) from rfl]
    refine scanFor_cons_hit _ _ _ _ (' ' :: (s.data ++ ([] : List Char))) s.data ?_ ?_
    · rfl
    · exact lineCapture_clean s.data [] hne hhead
        (fun c hc => (hclean c hc).2.1) (Or.inr rfl)
  have hfc : scanFor factLabelAt lineCapture (mdStatementOnly s).data = none := by
    rw [hsec]
    rw [scanFor_posDead _ _ factMismatch factLabelAt_none_of_factMismatch
      "Assertion 1:\nStatement: ".data _ (by decide)]
    rw [scanFor_append_none factLabelAt lineCapture s.data [] (fun i hi =>
      factLabelAt_none_boundary (s.data.drop i) []
        (fun c hc => ⟨(hclean c (List.mem_of_mem_drop hc)).2.2,
          (hclean c (List.mem_of_mem_drop hc)).2.1⟩) (Or.inr rfl))]
    rfl
  have hmc : scanFor (anyLabelAt ["model confidence:", "confidence:"]) numCapture
      (mdStatementOnly s).data = none := by
    rw [hsec]
    rw [scanFor_posDead _ _ (labsMismatch ["model confidence:", "confidence:"])
      (fun p X hp => anyLabelAt_none_of_labsMismatch _ p X hp)
      "Assertion 1:\nStatement: ".data _ (by decide)]
    rw [scanFor_append_none _ numCapture s.data [] (fun i hi =>
      anyLabelAt_none_boundary _ (by decide) (s.data.drop i) []
        (fun c hc => (hclean c (List.mem_of_mem_drop hc)).2.2) (Or.inr rfl))]
    rfl
  have huc : scanFor (anyLabelAt ["user confidence:"]) numCapture
      (mdStatementOnly s).data = none := by
    rw [hsec]
    rw [scanFor_posDead _ _ (labsMismatch ["user confidence:"])
      (fun p X hp => anyLabelAt_none_of_labsMismatch _ p X hp)
      "Assertion 1:\nStatement: ".data _ (by decide)]
    rw [scanFor_append_none _ numCapture s.data [] (fun i hi =>
      anyLabelAt_none_boundary _ (by decide) (s.data.drop i) []
        (fun c hc => (hclean c (List.mem_of_mem_drop hc)).2.2) (Or.inr rfl))]
    rfl
  have hctx : scanFor (anyLabelAt ["context:", "analysis:", "explanation:"]) dotAllCapture
      (mdStatementOnly s).data = none := by
    rw [hsec]
    rw [scanFor_posDead _ _ (labsMismatch ["context:", "analysis:", "explanation:"])
      (fun p X hp => anyLabelAt_none_of_labsMismatch _ p X hp)
      "Assertion 1:\nStatement: ".data _ (by decide)]
    rw [scanFor_append_none _ dotAllCapture s.data [] (fun i hi =>
      anyLabelAt_none_boundary _ (by decide) (s.data.drop i) []
        (fun c hc => (hclean c (List.mem_of_mem_drop hc)).2.2) (Or.inr rfl))]
    rfl
  have hive : s.data.isEmpty = false := by
    cases hd : s.data with
    | nil => exact absurd hd hne
    | cons c r => rfl
  simp only [parseSection, hstmt, hfc, hmc, huc, hctx,
    jsTrim_eq_self s.data hhead hlast, hive,
    show zodConfidenceOk (some (mkRat 1 2)) = true from by decide]
  rw [if_neg (by simp), if_pos (by simp)]

/-- Helper: the whole markdown parse of the statement-only rendering. -/
theorem parseMarkdown_mdStatementOnly (s : String)
    (hne : s.data ≠ [])
    (hclean : ∀ c ∈ s.data, c.isDigit = false ∧ c ≠ '\n' ∧ c.toLower ≠ ':')
    (hhead : ∀ c, s.data.head? = some c → jsWs c = false)
    (hlast : ∀ c, s.data.getLast? = some c → jsWs c = false) :
    parseMarkdownAssertions (mdStatementOnly s) =
      [⟨s, false, some (mkRat 1 2), some (mkRat 1 2), none⟩] := by
  unfold parseMarkdownAssertions
  rw [splitSections_mdStatementOnly s (fun c hc => ⟨(hclean c hc).1, (hclean c hc).2.1⟩)]
  simp [parseSection_mdStatementOnly s hne hclean hhead hlast]

/-- Claim C5 (amended): the parser tries the strict JSON-array parse
first and only on failure falls back to the markdown format; for the
same semantic content rendered in both shapes the parsed statement
fields agree exactly (for statements that are trimmed, nonempty, and
free of digits, colons and newlines), while the markdown confidences
revert to the 0.5 defaults because the section splitter severs decimal
numerals; fields absent from a markdown section receive the documented
defaults (`modelConfidence = userConfidence = 0.5`,
`isFactCheckable = false`); and malformed segments are discarded
individually, leaving a partial result list. -/
theorem parseAssertions_dual_format (s : String)
    (hne : s.data ≠ [])
    (hclean : ∀ c ∈ s.data, c.isDigit = false ∧ c ≠ '\n' ∧ c.toLower ≠ ':')
    (hhead : ∀ c, s.data.head? = some c → jsWs c = false)
    (hlast : ∀ c, s.data.getLast? = some c → jsWs c = false) :
    (∀ xs content, parseAssertionsFromResponse (some (.jarr xs)) content =
      parseJsonAssertions xs) ∧
    (∀ content, parseAssertionsFromResponse none content =
      parseMarkdownAssertions content) ∧
    (∀ content, parseAssertionsFromResponse (some (.jarr [jsonAssertion s])) content =
      [⟨s, true, some (mkRat 9 10), some (mkRat 8 10), none⟩]) ∧
    parseAssertionsFromResponse none (mdAssertion s) =
      [⟨s, true, some (mkRat 1 2), some (mkRat 1 2), none⟩] ∧
    (∀ content, (parseAssertionsFromResponse none (mdAssertion s)).map Assertion.statement =
      (parseAssertionsFromResponse (some (.jarr [jsonAssertion s])) content).map
        Assertion.statement) ∧
    parseAssertionsFromResponse none (mdStatementOnly s) =
      [⟨s, false, some (mkRat 1 2), some (mkRat 1 2), none⟩] ∧
    parseAssertionsFromResponse none
        "Assertion 1:\nFact-checkable: yes\n\nAssertion 2:\nStatement: hello" =
      [⟨"hello", false, some (mkRat 1 2), some (mkRat 1 2), none⟩] := by
  have hjson : ∀ content, parseAssertionsFromResponse (some (.jarr [jsonAssertion s]))
      content = [⟨s, true, some (mkRat 9 10), some (mkRat 8 10), none⟩] := by
    intro content
    show parseJsonAssertions [jsonAssertion s] = _
    rfl
  have hmd := parseMarkdown_mdAssertion s hne hclean hhead hlast
  refine ⟨fun xs content => rfl, fun content => rfl, hjson, hmd, ?_, ?_, ?_⟩
  · intro content
    rw [hjson content]
    show (parseMarkdownAssertions (mdAssertion s)).map _ = _
    rw [hmd]
    rfl
  · exact parseMarkdown_mdStatementOnly s hne hclean hhead hlast
  · decide

/-- Claim C5 counterexample: the same semantic content rendered as a
strict JSON array and as the markdown format does not produce equivalent
`Assertion` objects: with the statement "GDP grew 3.5 percent" the
section splitter cuts at the decimal numeral inside the statement, so the
markdown parse truncates the statement to "GDP grew" and loses the
confidences, while the JSON parse returns the full assertion. -/
theorem parseAssertions_equivalence_counterexample :
    parseAssertionsFromResponse
      (some (.jarr [jsonAssertion "GDP grew 3.5 percent"]))
      "[\x7b\"statement\": \"GDP grew 3.5 percent\", \"isFactCheckable\": true\x7d]" =
      [⟨"GDP grew 3.5 percent", true, some (mkRat 9 10), some (mkRat 8 10), none⟩] ∧
    parseAssertionsFromResponse none (mdAssertion "GDP grew 3.5 percent") =
      [⟨"GDP grew", false, some (mkRat 1 2), some (mkRat 1 2), none⟩] ∧
    ("GDP grew" : String) ≠ "GDP grew 3.5 percent" :=
  ⟨by decide, by decide, by decide⟩

/-- Witness for C5 (amended) at the statement "hello world". -/
theorem parseAssertions_dual_format_witness :
    parseAssertionsFromResponse none (mdAssertion "hello world") =
      [⟨"hello world", true, some (mkRat 1 2), some (mkRat 1 2), none⟩] ∧
    parseAssertionsFromResponse (some (.jarr [jsonAssertion "hello world"])) "x" =
      [⟨"hello world", true, some (mkRat 9 10), some (mkRat 8 10), none⟩] := by
  have h := parseAssertions_dual_format "hello world" (by decide) (by decide)
    (fun c hc => by
      rw [show "hello world".data.head? = some 'h' from rfl] at hc
      injection hc with h2
      subst h2
      decide)
    (fun c hc => by
      rw [show "hello world".data.getLast? = some 'd' from rfl] at hc
      injection hc with h2
      subst h2
      decide)
  exact ⟨h.2.2.2.1, h.2.2.1 "x"⟩
